import Mathlib

/-!
Verification of the Polkadot Bulletin chain runtime's XCM dispatch and
admission pipeline (`runtime/src/xcm_config.rs`, `runtime/src/bridge_config.rs`).

The Rust code is shallowly embedded: machine bytes are naturals, SCALE
decoding is modelled by explicit executable decoders, fallible Rust
functions return `Except`/`Option`, and runtime storage is passed
explicitly. Only the XCM variants and SCALE enum indices actually
exercised by this runtime are modelled: a byte tag the model does not
recognise makes the decoder fail, just as the real decoder fails on an
index that its enum does not declare.
-/

/-- A byte string; each element is one byte value. -/
abbrev Bytes := List Nat

/-- Identity of a global consensus network (`NetworkId` of the `xcm` crate).
`ByGenesis` carries a 32-byte genesis hash (SCALE index 0); `Polkadot` is
SCALE index 2 and `Kusama` index 3. Other variants are not used by this
runtime and are not modelled. -/
inductive NetworkId where
  | ByGenesis (genesis : Bytes)
  | Polkadot
  | Kusama
deriving DecidableEq

/-- A single location segment (`Junction` of the `xcm` crate).
`Parachain` is SCALE index 0 (compact-encoded id), `GlobalConsensus` is
SCALE index 9. Other junction kinds are not used by this runtime. -/
inductive Junction where
  | Parachain (id : Nat)
  | GlobalConsensus (network : NetworkId)
deriving DecidableEq

/-- `InteriorMultiLocation` (`Junctions`): the ordered segments
`Here`/`X1`..`X8`, modelled as a plain list (the constructor arity is the
list length). -/
abbrev InteriorMultiLocation := List Junction

/-- `MultiLocation`: parent hops plus interior segments. -/
structure MultiLocation where
  parents : Nat
  interior : InteriorMultiLocation
deriving DecidableEq

/-- `Junctions::global_consensus`: the leading segment, when it is a
`GlobalConsensus` marker; error otherwise. -/
def global_consensus (interior : InteriorMultiLocation) : Option NetworkId :=
  match interior.head? with
  | some (Junction.GlobalConsensus network) => some network
  | _ => none

/-- `OriginKind` of the `xcm` crate, SCALE indices 0..3. -/
inductive OriginKind where
  | Native
  | SovereignAccount
  | Superuser
  | Xcm
deriving DecidableEq

/-- `Weight` (`sp_weights`): two `u64` components, both compact-encoded. -/
structure Weight where
  ref_time : Nat
  proof_size : Nat
deriving DecidableEq

/-- `Weight::MAX`: both components at `u64::MAX`. -/
def Weight.MAX : Weight := ⟨2 ^ 64 - 1, 2 ^ 64 - 1⟩

/-- XCM v3 `Instruction`, restricted to the shapes this runtime touches:
`Transact` (SCALE index 6; the inner call stays as its encoded bytes, as in
`DoubleEncoded`) and `ClearOrigin` (SCALE index 10). -/
inductive Instruction where
  | Transact (origin_kind : OriginKind) (require_weight_at_most : Weight) (call : Bytes)
  | ClearOrigin
deriving DecidableEq

/-- An XCM v3 program: an ordered instruction sequence. -/
abbrev Xcm := List Instruction

/-- `VersionedInteriorMultiLocation`. Only the `V3` variant (SCALE index 3)
is modelled; the `V2` variant (index 2) is never produced or consumed by
this runtime. -/
inductive VersionedInteriorMultiLocation where
  | V3 (interior : InteriorMultiLocation)
deriving DecidableEq

/-- `VersionedXcm`. Only the `V3` variant (SCALE index 3) is modelled. -/
inductive VersionedXcm where
  | V3 (xcm : Xcm)
deriving DecidableEq

/-! ### SCALE decoding

Each decoder consumes a prefix of the byte string and returns the decoded
value together with the remaining bytes, mirroring how `Decode::decode`
advances a mutable input slice. `none` is the decode error. -/

/-- Read `n` bytes little-endian into a natural number. -/
def decodeLE : Nat → Bytes → Option (Nat × Bytes)
  | 0, l => some (0, l)
  | _ + 1, [] => none
  | n + 1, b :: rest => (decodeLE n rest).map (fun vr => (b + 256 * vr.1, vr.2))

/-- SCALE compact integer decoding (modes 0..3 by the low two bits of the
first byte). Minimal-encoding range checks of the reference codec are not
modelled; they only reject inputs this development never feeds in. -/
def decodeCompact (l : Bytes) : Option (Nat × Bytes) :=
  match l with
  | [] => none
  | b :: rest =>
    match b % 4 with
    | 0 => some (b / 4, rest)
    | 1 => (decodeLE 1 rest).map (fun vr => ((b + 256 * vr.1) / 4, vr.2))
    | 2 => (decodeLE 3 rest).map (fun vr => ((b + 256 * vr.1) / 4, vr.2))
    | _ => (decodeLE (b / 4 + 4) rest).map (fun vr => (vr.1, vr.2))

/-- Read exactly `n` raw bytes (a fixed-size byte array). -/
def decodeBytesN : Nat → Bytes → Option (Bytes × Bytes)
  | 0, l => some ([], l)
  | _ + 1, [] => none
  | n + 1, b :: rest => (decodeBytesN n rest).map (fun vr => (b :: vr.1, vr.2))

/-- `Vec<u8>` decoding: compact length followed by that many raw bytes. -/
def decodeVecU8 (l : Bytes) : Option (Bytes × Bytes) :=
  (decodeCompact l).bind (fun nr => decodeBytesN nr.1 nr.2)

/-- `NetworkId` decoding by SCALE enum index. -/
def decodeNetworkId (l : Bytes) : Option (NetworkId × Bytes) :=
  match l with
  | [] => none
  | tag :: rest =>
    if tag = 0 then (decodeBytesN 32 rest).map (fun gr => (NetworkId.ByGenesis gr.1, gr.2))
    else if tag = 2 then some (NetworkId.Polkadot, rest)
    else if tag = 3 then some (NetworkId.Kusama, rest)
    else none

/-- `Junction` decoding by SCALE enum index. -/
def decodeJunction (l : Bytes) : Option (Junction × Bytes) :=
  match l with
  | [] => none
  | tag :: rest =>
    if tag = 0 then (decodeCompact rest).map (fun ir => (Junction.Parachain ir.1, ir.2))
    else if tag = 9 then
      (decodeNetworkId rest).map (fun nr => (Junction.GlobalConsensus nr.1, nr.2))
    else none

/-- Decode exactly `n` consecutive junctions. -/
def decodeJunctionsN : Nat → Bytes → Option (List Junction × Bytes)
  | 0, l => some ([], l)
  | n + 1, l =>
    (decodeJunction l).bind (fun jr =>
      (decodeJunctionsN n jr.2).map (fun sr => (jr.1 :: sr.1, sr.2)))

/-- `Junctions` decoding: the enum index 0..8 (`Here`..`X8`) is the arity,
followed by that many junctions. -/
def decodeInterior (l : Bytes) : Option (InteriorMultiLocation × Bytes) :=
  match l with
  | [] => none
  | tag :: rest => if tag ≤ 8 then decodeJunctionsN tag rest else none

/-- `OriginKind` decoding by SCALE enum index. -/
def decodeOriginKind (l : Bytes) : Option (OriginKind × Bytes) :=
  match l with
  | [] => none
  | tag :: rest =>
    if tag = 0 then some (OriginKind.Native, rest)
    else if tag = 1 then some (OriginKind.SovereignAccount, rest)
    else if tag = 2 then some (OriginKind.Superuser, rest)
    else if tag = 3 then some (OriginKind.Xcm, rest)
    else none

/-- `Weight` decoding: two compact `u64` fields in declaration order. -/
def decodeWeight (l : Bytes) : Option (Weight × Bytes) :=
  (decodeCompact l).bind (fun rr =>
    (decodeCompact rr.2).map (fun pr => (Weight.mk rr.1 pr.1, pr.2)))

/-- `Instruction` decoding by SCALE enum index (`Transact` = 6 with fields
`origin_kind`, `require_weight_at_most`, `call`; `ClearOrigin` = 10). -/
def decodeInstruction (l : Bytes) : Option (Instruction × Bytes) :=
  match l with
  | [] => none
  | tag :: rest =>
    if tag = 6 then
      (decodeOriginKind rest).bind (fun kr =>
        (decodeWeight kr.2).bind (fun wr =>
          (decodeVecU8 wr.2).map (fun cr =>
            (Instruction.Transact kr.1 wr.1 cr.1, cr.2))))
    else if tag = 10 then some (Instruction.ClearOrigin, rest)
    else none

/-- Decode exactly `n` consecutive instructions. -/
def decodeInstructionsN : Nat → Bytes → Option (List Instruction × Bytes)
  | 0, l => some ([], l)
  | n + 1, l =>
    (decodeInstruction l).bind (fun ir =>
      (decodeInstructionsN n ir.2).map (fun sr => (ir.1 :: sr.1, sr.2)))

/-- `Xcm` decoding: a SCALE `Vec<Instruction>` (compact length, then the
instructions). -/
def decodeXcm (l : Bytes) : Option (Xcm × Bytes) :=
  (decodeCompact l).bind (fun nr => decodeInstructionsN nr.1 nr.2)

/-- `VersionedInteriorMultiLocation` decoding: version tag 3 then the
interior; any other tag is an unknown version and fails. -/
def decodeVersionedInterior (l : Bytes) : Option (VersionedInteriorMultiLocation × Bytes) :=
  match l with
  | [] => none
  | tag :: rest =>
    if tag = 3 then
      (decodeInterior rest).map (fun ir => (VersionedInteriorMultiLocation.V3 ir.1, ir.2))
    else none

/-- `VersionedXcm` decoding: version tag 3 then the program; any other tag
is an unknown version and fails. -/
def decodeVersionedXcm (l : Bytes) : Option (VersionedXcm × Bytes) :=
  match l with
  | [] => none
  | tag :: rest =>
    if tag = 3 then (decodeXcm rest).map (fun xr => (VersionedXcm.V3 xr.1, xr.2))
    else none

/-- Decoding of the bridge-message pair
`(VersionedInteriorMultiLocation, VersionedXcm<RuntimeCall>)` exactly as
`Decode::decode` does in `dispatch_blob`: the two components in order,
with any remaining bytes returned (not rejected). -/
def decodePair (l : Bytes) : Option ((VersionedInteriorMultiLocation × VersionedXcm) × Bytes) :=
  (decodeVersionedInterior l).bind (fun dr =>
    (decodeVersionedXcm dr.2).map (fun xr => ((dr.1, xr.1), xr.2)))

/-! ### Runtime constants (`xcm_config.rs` `parameter_types!`) -/

/-- `KAWABUNGA_PARACHAIN_ID` (`xcm_config.rs` line 43). -/
def KAWABUNGA_PARACHAIN_ID : Nat := 42

/-- `ThisNetwork`: the Bulletin chain network id, `ByGenesis([42u8; 32])`. -/
def ThisNetwork : NetworkId := NetworkId.ByGenesis (List.replicate 32 42)

/-- `UniversalLocation`: `X1(GlobalConsensus(ThisNetwork))`. -/
def UniversalLocation : InteriorMultiLocation := [Junction.GlobalConsensus ThisNetwork]

/-- `KawabungaLocation`: parents 1, interior
`X2(GlobalConsensus(Polkadot), Parachain(42))`. -/
def KawabungaLocation : MultiLocation :=
  ⟨1, [Junction.GlobalConsensus NetworkId.Polkadot, Junction.Parachain KAWABUNGA_PARACHAIN_ID]⟩

/-- `OnlyKawabungaLocation` (`match_types!`): contains exactly the one
pattern `MultiLocation { parents: 1, interior: X2(GlobalConsensus(Polkadot),
Parachain(KAWABUNGA_PARACHAIN_ID)) }`. -/
def OnlyKawabungaLocation_contains (loc : MultiLocation) : Bool :=
  decide (loc = ⟨1, [Junction.GlobalConsensus NetworkId.Polkadot,
                     Junction.Parachain KAWABUNGA_PARACHAIN_ID]⟩)

/-! ### The runtime call type

`RuntimeCall` is the runtime's call enumeration, generated in the
runtime's `lib.rs`, which is outside the sources at hand. -/

/-- Modelled from the spec: the local call representation (`RuntimeCall`,
declared in the runtime's `lib.rs`, not present under `src/`). Only the
`frame_system::remark` call exercised by this repository is modelled,
together with its SCALE layout (pallet index byte, call index byte,
payload). -/
inductive RuntimeCall where
  | system_remark (remark : Bytes)
deriving DecidableEq

/-- Modelled from the spec: SCALE decoding of `RuntimeCall` as performed by
`DoubleEncoded::ensure_decoded` (which uses an exhaustive decode, so
trailing bytes after the call are a decode error). System pallet index 0,
`remark` call index 0. -/
def decodeRuntimeCall (l : Bytes) : Option RuntimeCall :=
  match l with
  | 0 :: 0 :: rest =>
    (decodeVecU8 rest).bind (fun br =>
      if br.2 = [] then some (RuntimeCall.system_remark br.1) else none)
  | _ => none

/-- `AllowedXcmTransactCalls` (`match_types!`, `xcm_config.rs` lines 70-74):
the single pattern is the wildcard `_` (marked TODO in the source), so the
call allow-list contains every runtime call. -/
def AllowedXcmTransactCalls_contains (_call : RuntimeCall) : Bool := true

/-! ### The admission barrier (`AllowUnpaidTransactsFrom::should_execute`) -/

/-- `ProcessMessageError` (`frame_support`), the barrier's error type. -/
inductive ProcessMessageError where
  | BadFormat
  | Corrupt
  | Unsupported
  | Overweight (weight : Weight)
  | Yield
deriving DecidableEq

/-- `AllowUnpaidTransactsFrom::<RuntimeCall, AllowedCall, AllowedOrigin>::should_execute`
(`xcm_config.rs` lines 134-173), generic over the call type `C`, its decoder
(`Decode` bound) and the two `Contains` filters, as the Rust item is.

Order of checks, as in the source: first
`ensure!(AllowedOrigin::contains(origin), Unsupported)`; then the matcher's
`assert_remaining_insts(1)` (exactly one instruction, else `BadFormat`);
then the single instruction must be `Transact { origin_kind: Superuser, call, .. }`
whose `call` decodes (else `BadFormat`) to a member of `AllowedCall`
(else `BadFormat`); any other instruction is `BadFormat`. The
`require_weight_at_most` field and the `max_weight` argument are never
inspected. -/
def should_execute {C : Type} (allowedCall : C → Bool)
    (allowedOrigin : MultiLocation → Bool) (decodeCall : Bytes → Option C)
    (origin : MultiLocation) (instructions : List Instruction)
    (_max_weight : Weight) : Except ProcessMessageError Unit :=
  if allowedOrigin origin then
    match instructions with
    | [Instruction.Transact OriginKind.Superuser _ encoded_call] =>
      match decodeCall encoded_call with
      | some decoded_call =>
        if allowedCall decoded_call then Except.ok ()
        else Except.error ProcessMessageError.BadFormat
      | none => Except.error ProcessMessageError.BadFormat
    | [_] => Except.error ProcessMessageError.BadFormat
    | _ => Except.error ProcessMessageError.BadFormat
  else Except.error ProcessMessageError.Unsupported

/-- The barrier as instantiated in this runtime (`Barrier`, `xcm_config.rs`
line 191): `AllowUnpaidTransactsFrom<RuntimeCall, AllowedXcmTransactCalls,
OnlyKawabungaLocation>`. -/
def should_execute_bulletin (origin : MultiLocation)
    (instructions : List Instruction) (max_weight : Weight) :
    Except ProcessMessageError Unit :=
  should_execute AllowedXcmTransactCalls_contains OnlyKawabungaLocation_contains
    decodeRuntimeCall origin instructions max_weight

/-! ### Origin conversion (`KawabungaParachainAsRoot::convert_origin`) -/

/-- The runtime origin: root, a signed account, or none. Only `root` is ever
produced by the converter under verification. -/
inductive RuntimeOrigin where
  | root
  | signed (account : Nat)
  | unsigned
deriving DecidableEq

/-- `KawabungaParachainAsRoot::convert_origin` (`xcm_config.rs` lines
79-102): `(Superuser, MultiLocation { parents: 1, interior:
X2(GlobalConsensus(network), Parachain(para)) })` with `network == Polkadot`
and `para == KAWABUNGA_PARACHAIN_ID` converts to `RuntimeOrigin::root()`;
every other pair is `Err(origin)`, the original location unchanged. -/
def convert_origin (origin : MultiLocation) (kind : OriginKind) :
    Except MultiLocation RuntimeOrigin :=
  match kind, origin with
  | OriginKind.Superuser,
    ⟨1, [Junction.GlobalConsensus remote_network, Junction.Parachain remote_parachain]⟩ =>
    if remote_network = NetworkId.Polkadot ∧ remote_parachain = KAWABUNGA_PARACHAIN_ID then
      Except.ok RuntimeOrigin.root
    else Except.error origin
  | _, _ => Except.error origin

/-! ### Blob dispatch (`ImmediateXcmDispatcher::dispatch_blob`) -/

/-- `DispatchBlobError` (`xcm_builder`). -/
inductive DispatchBlobError where
  | Unbridgable
  | InvalidEncoding
  | UnsupportedLocationVersion
  | UnsupportedXcmVersion
  | RoutingError
  | NonUniversalDestination
  | WrongGlobal
deriving DecidableEq

/-- `xcm_executor`'s execution outcome (`Outcome`): complete, incomplete,
or error. The payload details are irrelevant to the dispatcher, which only
asks `ensure_complete`. -/
inductive Outcome where
  | Complete (used : Weight)
  | Incomplete (used : Weight)
  | Error
deriving DecidableEq

/-- `VersionedInteriorMultiLocation::try_into::<InteriorMultiLocation>`:
the `V3` payload converts as-is. -/
def interiorTryInto (v : VersionedInteriorMultiLocation) : Option InteriorMultiLocation :=
  match v with
  | VersionedInteriorMultiLocation.V3 interior => some interior

/-- `VersionedXcm::try_into::<Xcm>`: the `V3` payload converts as-is. -/
def xcmTryInto (v : VersionedXcm) : Option Xcm :=
  match v with
  | VersionedXcm.V3 xcm => some xcm

/-- `ImmediateXcmDispatcher::dispatch_blob` (`xcm_config.rs` lines 233-288),
parametrised by the external executor (`XcmExecutor::execute_xcm`, taking
the origin location, the program and the weight limit; the content-derived
`message_hash` argument, used only for tracing, carries no information the
executor's outcome depends on here and is elided). Steps, as in the source:
`our_global` from `UniversalLocation` (else `Unbridgable`); decode the pair
(else `InvalidEncoding`); version-convert the destination (else
`UnsupportedLocationVersion`); its leading global consensus (else
`NonUniversalDestination`); `ensure!(intended_global == our_global,
WrongGlobal)`; version-convert the message (else `UnsupportedXcmVersion`);
run the executor from `KawabungaLocation` with `Weight::MAX` and require a
complete outcome (else `RoutingError`). -/
def dispatch_blob (executor : MultiLocation → Xcm → Weight → Outcome)
    (blob : Bytes) : Except DispatchBlobError Unit :=
  match global_consensus UniversalLocation with
  | none => Except.error DispatchBlobError.Unbridgable
  | some our_global =>
    match decodePair blob with
    | none => Except.error DispatchBlobError.InvalidEncoding
    | some ((universal_dest, message), _rest) =>
      match interiorTryInto universal_dest with
      | none => Except.error DispatchBlobError.UnsupportedLocationVersion
      | some universal_dest =>
        match global_consensus universal_dest with
        | none => Except.error DispatchBlobError.NonUniversalDestination
        | some intended_global =>
          if intended_global = our_global then
            match xcmTryInto message with
            | none => Except.error DispatchBlobError.UnsupportedXcmVersion
            | some message =>
              match executor KawabungaLocation message Weight.MAX with
              | Outcome.Complete _ => Except.ok ()
              | _ => Except.error DispatchBlobError.RoutingError
          else Except.error DispatchBlobError.WrongGlobal

/-! ### Relayer admission gate (`bridge_config.rs`) -/

/-- An account identifier (opaque 32-byte id in the runtime). -/
abbrev AccountId := Nat

/-- `InvalidTransaction` (the variants relevant here). -/
inductive InvalidTransaction where
  | Call
  | Payment
  | BadSigner
deriving DecidableEq

/-- The storage read by the relayer gate: the optional stored value of the
`WhitelistedRelayers` parameter and the sudo pallet's optional key. -/
structure BridgeStorage where
  whitelistedRelayersStored : Option (List AccountId)
  sudoKey : Option AccountId
deriving DecidableEq

/-- `WhitelistedRelayers::get()` (`bridge_config.rs` lines 36-38): the
stored value when governance has written one; otherwise the default
expression `crate::Sudo::key().map(|k| vec![k]).unwrap_or_default()`. -/
def WhitelistedRelayers_get (s : BridgeStorage) : List AccountId :=
  match s.whitelistedRelayersStored with
  | some stored => stored
  | none =>
    match s.sudoKey with
    | some sudo_key => [sudo_key]
    | none => []

/-- `ensure_whitelisted_relayer` (`bridge_config.rs` lines 186-192): reject
with `InvalidTransaction::BadSigner` unless `who` is in
`WhitelistedRelayers`; the storage is only read, so the state component of
the result is the input state. -/
def ensure_whitelisted_relayer (s : BridgeStorage) (who : AccountId) :
    (Except InvalidTransaction Unit) × BridgeStorage :=
  (if (WhitelistedRelayers_get s).contains who then Except.ok ()
   else Except.error InvalidTransaction.BadSigner, s)

/-- Decidable equality on `Except` results, used to evaluate the embedded
functions at concrete inputs. -/
instance {e a : Type} [DecidableEq e] [DecidableEq a] : DecidableEq (Except e a) := fun x y =>
  match x, y with
  | Except.ok u, Except.ok v =>
    if h : u = v then Decidable.isTrue (by rw [h]) else Decidable.isFalse (by simp [h])
  | Except.error u, Except.error v =>
    if h : u = v then Decidable.isTrue (by rw [h]) else Decidable.isFalse (by simp [h])
  | Except.ok _, Except.error _ => Decidable.isFalse (by simp)
  | Except.error _, Except.ok _ => Decidable.isFalse (by simp)

/-! ### Helper definitions for concrete scenarios -/

/-- The encoded bytes of `RuntimeCall::System(remark { remark: vec![b] })`:
pallet index 0, call index 0, then the SCALE `Vec<u8>` `[b]`. -/
def remarkCallBytes (b : Nat) : Bytes := [0, 0, 4, b]

/-- The one-instruction program of the admission scenarios: a single
`Transact` with `Superuser` authority carrying an encoded `remark` call. -/
def exampleTransactProgram : List Instruction :=
  [Instruction.Transact OriginKind.Superuser ⟨0, 0⟩ (remarkCallBytes 1)]

/-- A fully valid inbound blob: destination
`V3(X1(GlobalConsensus(ThisNetwork)))` followed by
`V3(Xcm([Transact { Superuser, weight (0,0), remark call }]))`. -/
def exampleBlob : Bytes :=
  [3, 1, 9, 0] ++ List.replicate 32 42 ++ [3, 4, 6, 2, 0, 0, 16, 0, 0, 4, 1]

/-- The destination component `exampleBlob` decodes to. -/
def exampleDest : VersionedInteriorMultiLocation :=
  VersionedInteriorMultiLocation.V3 [Junction.GlobalConsensus ThisNetwork]

/-- The program component `exampleBlob` decodes to. -/
def exampleMessage : VersionedXcm :=
  VersionedXcm.V3 [Instruction.Transact OriginKind.Superuser ⟨0, 0⟩ (remarkCallBytes 1)]

/-- An inbound blob whose destination names the Polkadot network (not this
chain): `V3(X1(GlobalConsensus(Polkadot)))` followed by an empty `V3` program. -/
def wrongGlobalBlob : Bytes := [3, 1, 9, 2, 3, 0]

/-- Replace the `require_weight_at_most` field of every `Transact` in a
program using `f`, leaving everything else unchanged. -/
def setTransactWeights (f : Weight → Weight) (instructions : List Instruction) :
    List Instruction :=
  instructions.map (fun i =>
    match i with
    | Instruction.Transact kind weight call => Instruction.Transact kind (f weight) call
    | other => other)

/-! ## Parser extension lemmas

Each decoder only looks at the bytes it consumes: a successful parse of `l`
stays a parse of `l ++ s`, with `s` appended to the remainder. These
lemmas give the truncation-rejection theorem for the blob codec. -/

theorem decodeLE_extend (n : Nat) (l s : Bytes) (v : Nat) (r : Bytes)
    (h : decodeLE n l = some (v, r)) : decodeLE n (l ++ s) = some (v, r ++ s) := by
  induction n generalizing l v r with
  | zero =>
    simp only [decodeLE, Option.some.injEq, Prod.mk.injEq] at h
    obtain ⟨rfl, rfl⟩ := h
    simp [decodeLE]
  | succ n ih =>
    cases l with
    | nil => simp [decodeLE] at h
    | cons b rest =>
      simp only [decodeLE, Option.map_eq_some'] at h
      rcases h with ⟨⟨v1, r1⟩, h1, h2⟩
      simp only [Prod.mk.injEq] at h2
      obtain ⟨rfl, rfl⟩ := h2
      simp only [List.cons_append, decodeLE, Option.map_eq_some']
      exact ⟨(v1, r1 ++ s), ih rest v1 r1 h1, rfl⟩

theorem decodeCompact_extend (l s : Bytes) (v : Nat) (r : Bytes)
    (h : decodeCompact l = some (v, r)) : decodeCompact (l ++ s) = some (v, r ++ s) := by
  cases l with
  | nil => simp [decodeCompact] at h
  | cons b rest =>
    have h4 : b % 4 = 0 ∨ b % 4 = 1 ∨ b % 4 = 2 ∨ b % 4 = 3 := by omega
    rcases h4 with h4 | h4 | h4 | h4 <;>
      simp only [decodeCompact, h4, List.cons_append, Option.some.injEq, Prod.mk.injEq,
        Option.map_eq_some'] at h ⊢
    · obtain ⟨rfl, rfl⟩ := h
      exact ⟨rfl, rfl⟩
    · rcases h with ⟨⟨v1, r1⟩, h1, h2⟩
      simp only [Prod.mk.injEq] at h2
      obtain ⟨rfl, rfl⟩ := h2
      exact ⟨(v1, r1 ++ s), decodeLE_extend 1 rest s v1 r1 h1, rfl, rfl⟩
    · rcases h with ⟨⟨v1, r1⟩, h1, h2⟩
      simp only [Prod.mk.injEq] at h2
      obtain ⟨rfl, rfl⟩ := h2
      exact ⟨(v1, r1 ++ s), decodeLE_extend 3 rest s v1 r1 h1, rfl, rfl⟩
    · rcases h with ⟨⟨v1, r1⟩, h1, h2⟩
      simp only [Prod.mk.injEq] at h2
      obtain ⟨rfl, rfl⟩ := h2
      exact ⟨(v1, r1 ++ s), decodeLE_extend (b / 4 + 4) rest s v1 r1 h1, rfl, rfl⟩

theorem decodeBytesN_extend (n : Nat) (l s : Bytes) (v r : Bytes)
    (h : decodeBytesN n l = some (v, r)) : decodeBytesN n (l ++ s) = some (v, r ++ s) := by
  induction n generalizing l v r with
  | zero =>
    simp only [decodeBytesN, Option.some.injEq, Prod.mk.injEq] at h
    obtain ⟨rfl, rfl⟩ := h
    simp [decodeBytesN]
  | succ n ih =>
    cases l with
    | nil => simp [decodeBytesN] at h
    | cons b rest =>
      simp only [decodeBytesN, Option.map_eq_some'] at h
      rcases h with ⟨⟨v1, r1⟩, h1, h2⟩
      simp only [Prod.mk.injEq] at h2
      obtain ⟨rfl, rfl⟩ := h2
      simp only [List.cons_append, decodeBytesN, Option.map_eq_some']
      exact ⟨(v1, r1 ++ s), ih rest v1 r1 h1, rfl⟩

theorem decodeVecU8_extend (l s : Bytes) (v r : Bytes)
    (h : decodeVecU8 l = some (v, r)) : decodeVecU8 (l ++ s) = some (v, r ++ s) := by
  simp only [decodeVecU8, Option.bind_eq_some] at h ⊢
  rcases h with ⟨⟨n1, r1⟩, h1, h2⟩
  exact ⟨(n1, r1 ++ s), decodeCompact_extend l s n1 r1 h1, decodeBytesN_extend n1 r1 s v r h2⟩

theorem decodeNetworkId_extend (l s : Bytes) (v : NetworkId) (r : Bytes)
    (h : decodeNetworkId l = some (v, r)) : decodeNetworkId (l ++ s) = some (v, r ++ s) := by
  cases l with
  | nil => simp [decodeNetworkId] at h
  | cons tag rest =>
    by_cases h0 : tag = 0
    · subst h0
      simp only [decodeNetworkId, List.cons_append, if_pos, Option.map_eq_some'] at h ⊢
      rcases h with ⟨⟨v1, r1⟩, h1, h2⟩
      simp only [Prod.mk.injEq] at h2
      obtain ⟨rfl, rfl⟩ := h2
      exact ⟨(v1, r1 ++ s), decodeBytesN_extend 32 rest s v1 r1 h1, rfl⟩
    · by_cases h2t : tag = 2
      · subst h2t
        simp only [decodeNetworkId, List.cons_append] at h ⊢
        norm_num at h ⊢
        exact ⟨h.1, by rw [h.2]⟩
      · by_cases h3t : tag = 3
        · subst h3t
          simp only [decodeNetworkId, List.cons_append] at h ⊢
          norm_num at h ⊢
          exact ⟨h.1, by rw [h.2]⟩
        · simp [decodeNetworkId, h0, h2t, h3t] at h

theorem decodeJunction_extend (l s : Bytes) (v : Junction) (r : Bytes)
    (h : decodeJunction l = some (v, r)) : decodeJunction (l ++ s) = some (v, r ++ s) := by
  cases l with
  | nil => simp [decodeJunction] at h
  | cons tag rest =>
    by_cases h0 : tag = 0
    · subst h0
      simp only [decodeJunction, List.cons_append, if_pos, Option.map_eq_some'] at h ⊢
      rcases h with ⟨⟨v1, r1⟩, h1, h2⟩
      simp only [Prod.mk.injEq] at h2
      obtain ⟨rfl, rfl⟩ := h2
      exact ⟨(v1, r1 ++ s), decodeCompact_extend rest s v1 r1 h1, rfl⟩
    · by_cases h9 : tag = 9
      · subst h9
        simp only [decodeJunction, List.cons_append] at h ⊢
        norm_num [Option.map_eq_some'] at h ⊢
        rcases h with ⟨a, h1, h2⟩
        exact ⟨a, decodeNetworkId_extend rest s a r h1, h2⟩
      · simp [decodeJunction, h0, h9] at h

theorem decodeJunctionsN_extend (n : Nat) (l s : Bytes) (v : List Junction) (r : Bytes)
    (h : decodeJunctionsN n l = some (v, r)) :
    decodeJunctionsN n (l ++ s) = some (v, r ++ s) := by
  induction n generalizing l v r with
  | zero =>
    simp only [decodeJunctionsN, Option.some.injEq, Prod.mk.injEq] at h
    obtain ⟨rfl, rfl⟩ := h
    simp [decodeJunctionsN]
  | succ n ih =>
    simp only [decodeJunctionsN, Option.bind_eq_some, Option.map_eq_some'] at h ⊢
    rcases h with ⟨⟨j1, r1⟩, h1, ⟨⟨v2, r2⟩, h2, h3⟩⟩
    simp only [Prod.mk.injEq] at h3
    obtain ⟨rfl, rfl⟩ := h3
    exact ⟨(j1, r1 ++ s), decodeJunction_extend l s j1 r1 h1,
      (v2, r2 ++ s), ih r1 v2 r2 h2, rfl⟩

theorem decodeInterior_extend (l s : Bytes) (v : InteriorMultiLocation) (r : Bytes)
    (h : decodeInterior l = some (v, r)) : decodeInterior (l ++ s) = some (v, r ++ s) := by
  cases l with
  | nil => simp [decodeInterior] at h
  | cons tag rest =>
    simp only [decodeInterior, List.cons_append] at h ⊢
    by_cases ht : tag ≤ 8
    · rw [if_pos ht] at h ⊢
      exact decodeJunctionsN_extend tag rest s v r h
    · rw [if_neg ht] at h
      exact absurd h (by simp)

theorem decodeOriginKind_extend (l s : Bytes) (v : OriginKind) (r : Bytes)
    (h : decodeOriginKind l = some (v, r)) : decodeOriginKind (l ++ s) = some (v, r ++ s) := by
  cases l with
  | nil => simp [decodeOriginKind] at h
  | cons tag rest =>
    by_cases h0 : tag = 0
    · subst h0
      simp only [decodeOriginKind, List.cons_append] at h ⊢
      norm_num at h ⊢
      exact ⟨h.1, by rw [h.2]⟩
    · by_cases h1 : tag = 1
      · subst h1
        simp only [decodeOriginKind, List.cons_append] at h ⊢
        norm_num at h ⊢
        exact ⟨h.1, by rw [h.2]⟩
      · by_cases h2 : tag = 2
        · subst h2
          simp only [decodeOriginKind, List.cons_append] at h ⊢
          norm_num at h ⊢
          exact ⟨h.1, by rw [h.2]⟩
        · by_cases h3 : tag = 3
          · subst h3
            simp only [decodeOriginKind, List.cons_append] at h ⊢
            norm_num at h ⊢
            exact ⟨h.1, by rw [h.2]⟩
          · simp [decodeOriginKind, h0, h1, h2, h3] at h

theorem decodeWeight_extend (l s : Bytes) (v : Weight) (r : Bytes)
    (h : decodeWeight l = some (v, r)) : decodeWeight (l ++ s) = some (v, r ++ s) := by
  simp only [decodeWeight, Option.bind_eq_some, Option.map_eq_some'] at h ⊢
  rcases h with ⟨⟨v1, r1⟩, h1, ⟨⟨v2, r2⟩, h2, h3⟩⟩
  simp only [Prod.mk.injEq] at h3
  obtain ⟨rfl, rfl⟩ := h3
  exact ⟨(v1, r1 ++ s), decodeCompact_extend l s v1 r1 h1,
    (v2, r2 ++ s), decodeCompact_extend r1 s v2 r2 h2, rfl⟩

theorem decodeInstruction_extend (l s : Bytes) (v : Instruction) (r : Bytes)
    (h : decodeInstruction l = some (v, r)) : decodeInstruction (l ++ s) = some (v, r ++ s) := by
  cases l with
  | nil => simp [decodeInstruction] at h
  | cons tag rest =>
    by_cases h6 : tag = 6
    · subst h6
      simp only [decodeInstruction, List.cons_append, if_pos, Option.bind_eq_some,
        Option.map_eq_some'] at h ⊢
      rcases h with ⟨⟨k1, r1⟩, h1, ⟨⟨w2, r2⟩, h2, ⟨⟨c3, r3⟩, h3, h4⟩⟩⟩
      simp only [Prod.mk.injEq] at h4
      obtain ⟨rfl, rfl⟩ := h4
      exact ⟨(k1, r1 ++ s), decodeOriginKind_extend rest s k1 r1 h1,
        (w2, r2 ++ s), decodeWeight_extend r1 s w2 r2 h2,
        (c3, r3 ++ s), decodeVecU8_extend r2 s c3 r3 h3, rfl⟩
    · by_cases h10 : tag = 10
      · subst h10
        simp only [decodeInstruction, List.cons_append] at h ⊢
        norm_num at h ⊢
        exact ⟨h.1, by rw [h.2]⟩
      · simp [decodeInstruction, h6, h10] at h

theorem decodeInstructionsN_extend (n : Nat) (l s : Bytes) (v : List Instruction) (r : Bytes)
    (h : decodeInstructionsN n l = some (v, r)) :
    decodeInstructionsN n (l ++ s) = some (v, r ++ s) := by
  induction n generalizing l v r with
  | zero =>
    simp only [decodeInstructionsN, Option.some.injEq, Prod.mk.injEq] at h
    obtain ⟨rfl, rfl⟩ := h
    simp [decodeInstructionsN]
  | succ n ih =>
    simp only [decodeInstructionsN, Option.bind_eq_some, Option.map_eq_some'] at h ⊢
    rcases h with ⟨⟨i1, r1⟩, h1, ⟨⟨v2, r2⟩, h2, h3⟩⟩
    simp only [Prod.mk.injEq] at h3
    obtain ⟨rfl, rfl⟩ := h3
    exact ⟨(i1, r1 ++ s), decodeInstruction_extend l s i1 r1 h1,
      (v2, r2 ++ s), ih r1 v2 r2 h2, rfl⟩

theorem decodeXcm_extend (l s : Bytes) (v : Xcm) (r : Bytes)
    (h : decodeXcm l = some (v, r)) : decodeXcm (l ++ s) = some (v, r ++ s) := by
  simp only [decodeXcm, Option.bind_eq_some] at h ⊢
  rcases h with ⟨⟨n1, r1⟩, h1, h2⟩
  exact ⟨(n1, r1 ++ s), decodeCompact_extend l s n1 r1 h1,
    decodeInstructionsN_extend n1 r1 s v r h2⟩

theorem decodeVersionedInterior_extend (l s : Bytes) (v : VersionedInteriorMultiLocation)
    (r : Bytes) (h : decodeVersionedInterior l = some (v, r)) :
    decodeVersionedInterior (l ++ s) = some (v, r ++ s) := by
  cases l with
  | nil => simp [decodeVersionedInterior] at h
  | cons tag rest =>
    by_cases h3 : tag = 3
    · subst h3
      simp only [decodeVersionedInterior, List.cons_append, if_pos, Option.map_eq_some'] at h ⊢
      rcases h with ⟨⟨v1, r1⟩, h1, h2⟩
      simp only [Prod.mk.injEq] at h2
      obtain ⟨rfl, rfl⟩ := h2
      exact ⟨(v1, r1 ++ s), decodeInterior_extend rest s v1 r1 h1, rfl⟩
    · simp [decodeVersionedInterior, h3] at h

theorem decodeVersionedXcm_extend (l s : Bytes) (v : VersionedXcm) (r : Bytes)
    (h : decodeVersionedXcm l = some (v, r)) :
    decodeVersionedXcm (l ++ s) = some (v, r ++ s) := by
  cases l with
  | nil => simp [decodeVersionedXcm] at h
  | cons tag rest =>
    by_cases h3 : tag = 3
    · subst h3
      simp only [decodeVersionedXcm, List.cons_append, if_pos, Option.map_eq_some'] at h ⊢
      rcases h with ⟨⟨v1, r1⟩, h1, h2⟩
      simp only [Prod.mk.injEq] at h2
      obtain ⟨rfl, rfl⟩ := h2
      exact ⟨(v1, r1 ++ s), decodeXcm_extend rest s v1 r1 h1, rfl⟩
    · simp [decodeVersionedXcm, h3] at h

theorem decodePair_extend (l s : Bytes)
    (p : VersionedInteriorMultiLocation × VersionedXcm) (r : Bytes)
    (h : decodePair l = some (p, r)) : decodePair (l ++ s) = some (p, r ++ s) := by
  simp only [decodePair, Option.bind_eq_some, Option.map_eq_some'] at h ⊢
  rcases h with ⟨⟨d1, r1⟩, h1, ⟨⟨x2, r2⟩, h2, h3⟩⟩
  simp only [Prod.mk.injEq] at h3
  obtain ⟨rfl, rfl⟩ := h3
  exact ⟨(d1, r1 ++ s), decodeVersionedInterior_extend l s d1 r1 h1,
    (x2, r2 ++ s), decodeVersionedXcm_extend r1 s x2 r2 h2, rfl⟩

/-! ## Shared helper lemmas -/

theorem OnlyKawabunga_contains_eq (origin : MultiLocation) :
    OnlyKawabungaLocation_contains origin = decide (origin = KawabungaLocation) := rfl

theorem OnlyKawabunga_contains_false (origin : MultiLocation)
    (h : origin ≠ KawabungaLocation) : OnlyKawabungaLocation_contains origin = false := by
  rw [OnlyKawabunga_contains_eq]
  simp [h]

theorem should_execute_eq {C : Type} (allowedCall : C → Bool)
    (allowedOrigin : MultiLocation → Bool) (decodeCall : Bytes → Option C)
    (origin : MultiLocation) (instructions : List Instruction) (w : Weight)
    (h : allowedOrigin origin = true) :
    should_execute allowedCall allowedOrigin decodeCall origin instructions w =
      match instructions with
      | [Instruction.Transact OriginKind.Superuser _ encoded] =>
        match decodeCall encoded with
        | some c =>
          if allowedCall c then Except.ok () else Except.error ProcessMessageError.BadFormat
        | none => Except.error ProcessMessageError.BadFormat
      | _ => Except.error ProcessMessageError.BadFormat := by
  simp only [should_execute, h, if_true]
  rcases instructions with _ | ⟨i, rest⟩
  · rfl
  · rcases rest with _ | ⟨i2, rest⟩
    · cases i with
      | Transact k wt c => cases k <;> rfl
      | ClearOrigin => rfl
    · cases i with
      | Transact k wt c => cases k <;> rfl
      | ClearOrigin => rfl

/-! ## Claim theorems -/

/-- C5: `convert_origin` returns the local root origin exactly when the
claimed kind is `Superuser` and the location is the Kawabunga parachain
location; every other combination returns the original location as the
error, never a default origin. -/
theorem convert_origin_totality (origin : MultiLocation) (kind : OriginKind) :
    convert_origin origin kind =
      if kind = OriginKind.Superuser ∧ origin = KawabungaLocation then
        Except.ok RuntimeOrigin.root
      else Except.error origin := by
  by_cases h : kind = OriginKind.Superuser ∧ origin = KawabungaLocation
  · obtain ⟨rfl, rfl⟩ := h
    rw [if_pos ⟨rfl, rfl⟩]
    rfl
  · rw [if_neg h]
    unfold convert_origin
    split
    · next n p =>
      rw [if_neg]
      rintro ⟨rfl, rfl⟩
      exact h ⟨rfl, rfl⟩
    · rfl

/-- C2: for any allow-listed origin, the generic admission barrier succeeds
exactly on a single `Transact` with `Superuser` authority whose encoded call
decodes into the local call type and passes the call allow-list; every
failure of the shape check is `BadFormat`, and in particular a program of
two instructions is rejected with `BadFormat`. -/
theorem barrier_exact_shape {C : Type} (allowedCall : C → Bool)
    (allowedOrigin : MultiLocation → Bool) (decodeCall : Bytes → Option C)
    (origin : MultiLocation) (h : allowedOrigin origin = true) :
    (∀ (instructions : List Instruction) (max_weight : Weight),
      (should_execute allowedCall allowedOrigin decodeCall origin instructions max_weight
          = Except.ok () ↔
        ∃ w encoded c,
          instructions = [Instruction.Transact OriginKind.Superuser w encoded]
            ∧ decodeCall encoded = some c ∧ allowedCall c = true)
      ∧ (∀ e, should_execute allowedCall allowedOrigin decodeCall origin instructions max_weight
            = Except.error e → e = ProcessMessageError.BadFormat))
    ∧ (∀ (i1 i2 : Instruction) (max_weight : Weight),
        should_execute allowedCall allowedOrigin decodeCall origin [i1, i2] max_weight
          = Except.error ProcessMessageError.BadFormat) := by
  constructor
  · intro instructions w
    rw [should_execute_eq allowedCall allowedOrigin decodeCall origin instructions w h]
    rcases instructions with _ | ⟨i, rest⟩
    · constructor
      · simp
      · intro e he
        simp only [Except.error.injEq] at he
        exact he.symm
    · rcases rest with _ | ⟨i2, rest⟩
      · cases i with
        | Transact k wt c =>
          cases k with
          | Superuser =>
            rcases hdc : decodeCall c with _ | cv
            · constructor
              · simp [hdc]
              · intro e he
                simp only [hdc, Except.error.injEq] at he
                exact he.symm
            · by_cases hac : allowedCall cv = true
              · constructor
                · simp only [hdc, hac, if_true]
                  constructor
                  · intro _
                    exact ⟨wt, c, cv, rfl, hdc, hac⟩
                  · intro _
                    trivial
                · intro e he
                  simp only [hdc, hac, if_true] at he
                  exact absurd he (by simp)
              · constructor
                · simp only [hdc, if_neg hac]
                  constructor
                  · intro he
                    exact absurd he (by simp)
                  · rintro ⟨w1, enc1, c1, heq, hd1, ha1⟩
                    simp only [List.cons.injEq, Instruction.Transact.injEq] at heq
                    obtain ⟨⟨_, _, rfl⟩, _⟩ := heq
                    rw [hdc] at hd1
                    simp only [Option.some.injEq] at hd1
                    subst hd1
                    exact absurd ha1 hac
                · intro e he
                  simp only [hdc, if_neg hac, Except.error.injEq] at he
                  exact he.symm
          | Native =>
            constructor
            · simp
            · intro e he
              simp only [Except.error.injEq] at he
              exact he.symm
          | SovereignAccount =>
            constructor
            · simp
            · intro e he
              simp only [Except.error.injEq] at he
              exact he.symm
          | Xcm =>
            constructor
            · simp
            · intro e he
              simp only [Except.error.injEq] at he
              exact he.symm
        | ClearOrigin =>
          constructor
          · simp
          · intro e he
            simp only [Except.error.injEq] at he
            exact he.symm
      · have hred : (match i :: i2 :: rest with
            | [Instruction.Transact OriginKind.Superuser _ encoded] =>
              match decodeCall encoded with
              | some c =>
                if allowedCall c then Except.ok ()
                else Except.error ProcessMessageError.BadFormat
              | none => Except.error ProcessMessageError.BadFormat
            | _ => Except.error ProcessMessageError.BadFormat)
            = Except.error ProcessMessageError.BadFormat := by
          cases i with
          | Transact k wt c => cases k <;> rfl
          | ClearOrigin => rfl
        rw [hred]
        constructor
        · simp
        · intro e he
          simp only [Except.error.injEq] at he
          exact he.symm
  · intro i1 i2 w
    rw [should_execute_eq allowedCall allowedOrigin decodeCall origin [i1, i2] w h]
    cases i1 with
    | Transact k wt c => cases k <;> rfl
    | ClearOrigin => rfl

/-- C2 witness: at the runtime's instantiation, with the allow-listed
Kawabunga origin, a two-instruction program is rejected with `BadFormat`,
and the single-`Transact` scenario satisfies the success characterisation. -/
theorem barrier_exact_shape_witness :
    should_execute AllowedXcmTransactCalls_contains OnlyKawabungaLocation_contains
        decodeRuntimeCall KawabungaLocation [Instruction.ClearOrigin, Instruction.ClearOrigin]
        ⟨0, 0⟩
      = Except.error ProcessMessageError.BadFormat
    ∧ should_execute AllowedXcmTransactCalls_contains OnlyKawabungaLocation_contains
        decodeRuntimeCall KawabungaLocation exampleTransactProgram ⟨0, 0⟩
      = Except.ok () :=
  ⟨(barrier_exact_shape AllowedXcmTransactCalls_contains OnlyKawabungaLocation_contains
      decodeRuntimeCall KawabungaLocation (by decide)).2
      Instruction.ClearOrigin Instruction.ClearOrigin ⟨0, 0⟩,
   ((barrier_exact_shape AllowedXcmTransactCalls_contains OnlyKawabungaLocation_contains
      decodeRuntimeCall KawabungaLocation (by decide)).1 exampleTransactProgram ⟨0, 0⟩).1.mpr
      ⟨⟨0, 0⟩, remarkCallBytes 1, RuntimeCall.system_remark [1], rfl, by decide, rfl⟩⟩

/-- C3: a sender location other than the Kawabunga parachain location makes
the runtime's admission barrier fail with `Unsupported`, whatever the
instruction sequence and the declared weight are — in particular such a
sender never reaches the shape check and never receives `BadFormat`. -/
theorem barrier_rejects_unknown_sender (origin : MultiLocation)
    (h : origin ≠ KawabungaLocation) (instructions : List Instruction)
    (max_weight : Weight) :
    should_execute_bulletin origin instructions max_weight
      = Except.error ProcessMessageError.Unsupported := by
  have hc := OnlyKawabunga_contains_false origin h
  simp [should_execute_bulletin, should_execute, hc]

/-- C3 witness: the barrier evaluated at a concrete non-allow-listed sender. -/
theorem barrier_rejects_unknown_sender_witness :
    should_execute_bulletin ⟨0, []⟩ exampleTransactProgram ⟨0, 0⟩
      = Except.error ProcessMessageError.Unsupported :=
  barrier_rejects_unknown_sender ⟨0, []⟩ (by decide) exampleTransactProgram ⟨0, 0⟩

/-- C9: the admission decision of the generic barrier does not depend on the
declared weights: the `max_weight` argument may change arbitrarily and the
`require_weight_at_most` field of every `Transact` may be rewritten by any
function, without changing the result. -/
theorem barrier_weight_independent {C : Type} (allowedCall : C → Bool)
    (allowedOrigin : MultiLocation → Bool) (decodeCall : Bytes → Option C)
    (origin : MultiLocation) (instructions : List Instruction)
    (f : Weight → Weight) (w1 w2 : Weight) :
    should_execute allowedCall allowedOrigin decodeCall origin
        (setTransactWeights f instructions) w1
      = should_execute allowedCall allowedOrigin decodeCall origin instructions w2 := by
  rcases instructions with _ | ⟨i, rest⟩
  · rfl
  · rcases rest with _ | ⟨i2, rest⟩
    · cases i with
      | Transact k wt c => cases k <;> rfl
      | ClearOrigin => rfl
    · cases i with
      | Transact k wt c =>
        cases i2 with
        | Transact k2 wt2 c2 => cases k <;> cases k2 <;> rfl
        | ClearOrigin => cases k <;> rfl
      | ClearOrigin =>
        cases i2 with
        | Transact k2 wt2 c2 => cases k2 <;> rfl
        | ClearOrigin => rfl

/-- C1 counterexample: at the runtime's concrete instantiation the call
allow-list `AllowedXcmTransactCalls` is the wildcard pattern and contains
every call, so replacing the allowed call by a different decodable call does
not flip the admission outcome: two single-`Transact` programs carrying
distinct calls are both admitted, and no call lies outside the allow-list. -/
theorem call_allowlist_universal :
    should_execute_bulletin KawabungaLocation
        [Instruction.Transact OriginKind.Superuser ⟨0, 0⟩ (remarkCallBytes 1)] ⟨0, 0⟩
      = Except.ok ()
    ∧ should_execute_bulletin KawabungaLocation
        [Instruction.Transact OriginKind.Superuser ⟨0, 0⟩ (remarkCallBytes 2)] ⟨0, 0⟩
      = Except.ok ()
    ∧ decodeRuntimeCall (remarkCallBytes 1) ≠ decodeRuntimeCall (remarkCallBytes 2)
    ∧ ∀ c : RuntimeCall, AllowedXcmTransactCalls_contains c = true :=
  ⟨by decide, by decide, by decide, fun _ => rfl⟩

/-- C1 (amended): the base single-`Transact` scenario is admitted; varying
the instruction count, the authority kind, or the sender location flips the
outcome to rejected; the call allow-list being the wildcard, varying the
call identity flips the outcome only to the extent that undecodable call
bytes are rejected. -/
theorem admission_strictness_amended :
    should_execute_bulletin KawabungaLocation exampleTransactProgram ⟨0, 0⟩ = Except.ok ()
    ∧ (∀ instructions : List Instruction, instructions.length ≠ 1 →
        should_execute_bulletin KawabungaLocation instructions ⟨0, 0⟩
          = Except.error ProcessMessageError.BadFormat)
    ∧ (∀ k, k ≠ OriginKind.Superuser →
        should_execute_bulletin KawabungaLocation
            [Instruction.Transact k ⟨0, 0⟩ (remarkCallBytes 1)] ⟨0, 0⟩
          = Except.error ProcessMessageError.BadFormat)
    ∧ (∀ origin, origin ≠ KawabungaLocation →
        should_execute_bulletin origin exampleTransactProgram ⟨0, 0⟩
          = Except.error ProcessMessageError.Unsupported)
    ∧ should_execute_bulletin KawabungaLocation
        [Instruction.Transact OriginKind.Superuser ⟨0, 0⟩ [255]] ⟨0, 0⟩
      = Except.error ProcessMessageError.BadFormat := by
  refine ⟨by decide, ?_, ?_, ?_, by decide⟩
  · intro instructions hlen
    rcases instructions with _ | ⟨i, rest⟩
    · decide
    · rcases rest with _ | ⟨i2, rest⟩
      · exact absurd rfl hlen
      · cases i with
        | Transact k wt c => cases k <;> rfl
        | ClearOrigin => rfl
  · intro k hk
    cases k with
    | Native => decide
    | SovereignAccount => decide
    | Superuser => exact absurd rfl hk
    | Xcm => decide
  · intro origin hne
    have hc := OnlyKawabunga_contains_false origin hne
    simp [should_execute_bulletin, should_execute, hc]

/-- C1 witness: the amended variations evaluated at concrete inputs — the
empty program, the `Native` authority kind and an arbitrary other sender. -/
theorem admission_strictness_amended_witness :
    should_execute_bulletin KawabungaLocation [] ⟨0, 0⟩
      = Except.error ProcessMessageError.BadFormat
    ∧ should_execute_bulletin KawabungaLocation
        [Instruction.Transact OriginKind.Native ⟨0, 0⟩ (remarkCallBytes 1)] ⟨0, 0⟩
      = Except.error ProcessMessageError.BadFormat
    ∧ should_execute_bulletin ⟨1, []⟩ exampleTransactProgram ⟨0, 0⟩
      = Except.error ProcessMessageError.Unsupported :=
  ⟨admission_strictness_amended.2.1 [] (by decide),
   admission_strictness_amended.2.2.1 OriginKind.Native (by decide),
   admission_strictness_amended.2.2.2.1 ⟨1, []⟩ (by decide)⟩

/-- C4: an inbound blob that decodes to a pair whose destination resolves to
a global consensus different from this chain's network is rejected with
`WrongGlobal`, for every possible executor — so the executor (and with it
the admission barrier) is never consulted and the destination is never
defaulted. -/
theorem dispatch_wrong_global_rejected
    (executor : MultiLocation → Xcm → Weight → Outcome) (blob : Bytes)
    (vd : VersionedInteriorMultiLocation) (vm : VersionedXcm) (rest : Bytes)
    (dest : InteriorMultiLocation) (g : NetworkId)
    (hdec : decodePair blob = some ((vd, vm), rest))
    (hver : interiorTryInto vd = some dest)
    (hglob : global_consensus dest = some g)
    (hne : g ≠ ThisNetwork) :
    dispatch_blob executor blob = Except.error DispatchBlobError.WrongGlobal := by
  have hour : global_consensus UniversalLocation = some ThisNetwork := rfl
  simp only [dispatch_blob, hour, hdec, hver, hglob]
  rw [if_neg hne]

/-- C4 witness: a concrete blob addressed to the Polkadot network is
rejected with `WrongGlobal` even under an executor that always completes. -/
theorem dispatch_wrong_global_rejected_witness :
    dispatch_blob (fun _ _ _ => Outcome.Complete ⟨0, 0⟩) wrongGlobalBlob
      = Except.error DispatchBlobError.WrongGlobal :=
  dispatch_wrong_global_rejected (fun _ _ _ => Outcome.Complete ⟨0, 0⟩) wrongGlobalBlob
    (VersionedInteriorMultiLocation.V3 [Junction.GlobalConsensus NetworkId.Polkadot])
    (VersionedXcm.V3 []) []
    [Junction.GlobalConsensus NetworkId.Polkadot] NetworkId.Polkadot
    (by decide) (by decide) (by decide) (by decide)

/-- C7: once decoding, destination resolution and version conversion have
succeeded, `dispatch_blob` always hands the program to the executor with the
maximal weight ceiling `Weight::MAX`, completing or failing with
`RoutingError` solely according to the executor's outcome at that ceiling. -/
theorem dispatch_uses_unbounded_weight
    (executor : MultiLocation → Xcm → Weight → Outcome) (blob : Bytes)
    (vd : VersionedInteriorMultiLocation) (vm : VersionedXcm) (rest : Bytes)
    (dest : InteriorMultiLocation) (m : Xcm)
    (hdec : decodePair blob = some ((vd, vm), rest))
    (hver : interiorTryInto vd = some dest)
    (hglob : global_consensus dest = some ThisNetwork)
    (hx : xcmTryInto vm = some m) :
    dispatch_blob executor blob =
      match executor KawabungaLocation m Weight.MAX with
      | Outcome.Complete _ => Except.ok ()
      | _ => Except.error DispatchBlobError.RoutingError := by
  have hour : global_consensus UniversalLocation = some ThisNetwork := rfl
  simp only [dispatch_blob, hour, hdec, hver, hglob, hx, if_pos]

/-- C7 witness: a fully valid concrete blob dispatched under an executor
that completes at the maximal weight yields success. -/
theorem dispatch_uses_unbounded_weight_witness :
    dispatch_blob (fun _ _ _ => Outcome.Complete ⟨0, 0⟩) exampleBlob = Except.ok () := by
  have hthm := dispatch_uses_unbounded_weight (fun _ _ _ => Outcome.Complete ⟨0, 0⟩)
    exampleBlob exampleDest exampleMessage []
    [Junction.GlobalConsensus ThisNetwork]
    [Instruction.Transact OriginKind.Superuser ⟨0, 0⟩ (remarkCallBytes 1)]
    (by decide) (by decide) (by decide) (by decide)
  rw [hthm]

/-- C6 (amended): pair decoding is a total function on byte strings that
fails on every truncation of a complete valid encoding and on unknown
version tags, both for the destination and for the program component;
trailing bytes after a valid encoding are however ignored, not rejected. -/
theorem decode_rejects_truncation_and_unknown_versions :
    (∀ blob p, decodePair blob = some (p, []) →
      ∀ n, n < blob.length → decodePair (blob.take n) = none)
    ∧ (∀ rest, decodePair (0 :: rest) = none)
    ∧ (∀ rest, decodePair (3 :: 0 :: 0 :: rest) = none) := by
  refine ⟨?_, fun rest => rfl, fun rest => rfl⟩
  intro blob p hfull n hn
  by_contra hsome
  rcases Option.ne_none_iff_exists'.mp hsome with ⟨⟨q, r⟩, hq⟩
  have hext := decodePair_extend (blob.take n) (blob.drop n) q r hq
  rw [List.take_append_drop] at hext
  rw [hfull] at hext
  simp only [Option.some.injEq, Prod.mk.injEq] at hext
  have hdrop : blob.drop n = [] := (List.append_eq_nil.mp hext.2.symm).2
  have hle : blob.length ≤ n := by
    have := congrArg List.length hdrop
    simp only [List.length_drop, List.length_nil] at this
    omega
  omega

/-- C6 witness: every proper prefix of the concrete valid blob fails to
decode — exemplified at length 10 — and the version-tag rejections applied
to concrete unknown tags. -/
theorem decode_rejects_truncation_witness :
    decodePair (exampleBlob.take 10) = none
    ∧ decodePair [0] = none
    ∧ decodePair [3, 0, 0] = none :=
  ⟨decode_rejects_truncation_and_unknown_versions.1 exampleBlob
      (exampleDest, exampleMessage) (by decide) 10 (by decide),
   decode_rejects_truncation_and_unknown_versions.2.1 [],
   decode_rejects_truncation_and_unknown_versions.2.2 []⟩

/-- C6 counterexample: the pair decoder, called as `Decode::decode` is in
`dispatch_blob`, accepts a valid encoding followed by a garbage byte — the
garbage is returned as an ignored remainder instead of causing a rejection. -/
theorem decode_accepts_trailing_garbage :
    decodePair exampleBlob = some ((exampleDest, exampleMessage), [])
    ∧ decodePair (exampleBlob ++ [7]) = some ((exampleDest, exampleMessage), [7])
    ∧ dispatch_blob (fun _ _ _ => Outcome.Complete ⟨0, 0⟩) (exampleBlob ++ [7])
      = Except.ok () :=
  ⟨by decide, by decide, by decide⟩

/-- C8: the relayer admission gate accepts exactly the members of the
`WhitelistedRelayers` set, failing with `BadSigner` on every other account,
and leaves the storage unchanged. -/
theorem relayer_gate_membership (s : BridgeStorage) (who : AccountId) :
    ((ensure_whitelisted_relayer s who).1 = Except.ok () ↔
      who ∈ WhitelistedRelayers_get s)
    ∧ (who ∉ WhitelistedRelayers_get s →
        (ensure_whitelisted_relayer s who).1 = Except.error InvalidTransaction.BadSigner)
    ∧ (ensure_whitelisted_relayer s who).2 = s := by
  refine ⟨?_, ?_, rfl⟩
  · by_cases hm : who ∈ WhitelistedRelayers_get s
    · simp [ensure_whitelisted_relayer, hm]
    · simp [ensure_whitelisted_relayer, hm]
  · intro hm
    simp [ensure_whitelisted_relayer, hm]

/-- C8 witness: the gate evaluated on a member and on a non-member of a
concrete whitelist. -/
theorem relayer_gate_membership_witness :
    (ensure_whitelisted_relayer ⟨some [5], none⟩ 5).1 = Except.ok ()
    ∧ (ensure_whitelisted_relayer ⟨some [5], none⟩ 7).1
      = Except.error InvalidTransaction.BadSigner :=
  ⟨(relayer_gate_membership ⟨some [5], none⟩ 5).1.mpr (by decide),
   (relayer_gate_membership ⟨some [5], none⟩ 7).2.1 (by decide)⟩

/-- C10: with no governance-written value, `WhitelistedRelayers` defaults to
the singleton of the sudo key when one is set and to the empty list
otherwise; in the empty case the relayer gate rejects every submitter. -/
theorem whitelisted_relayers_default :
    (∀ k : AccountId, WhitelistedRelayers_get ⟨none, some k⟩ = [k])
    ∧ WhitelistedRelayers_get ⟨none, none⟩ = []
    ∧ ∀ who : AccountId, (ensure_whitelisted_relayer ⟨none, none⟩ who).1
        = Except.error InvalidTransaction.BadSigner :=
  ⟨fun _ => rfl, rfl, fun _ => rfl⟩
